import Mathlib

/-!
Verification development for the habit-tracking dashboard
(source files `src/src/App.tsx`, `src/src/types.ts`, and the
Cloudflare Pages Function `src/unnamed/part_000`).

Modelling conventions:

* JavaScript objects (the completion log and its per-date records) are
  modelled as association lists.  The source never enumerates the keys of
  these objects (no `Object.keys`/`for..in` over them); the only
  observations it performs are property reads (`obj[k]`, possibly through
  optional chaining, where a missing property reads as `undefined`) and the
  implicit key-presence structure used by spreads and JSON serialization.
  The model therefore tracks exactly lookup and key presence; the physical
  order of entries is unobservable and irrelevant.
* A JavaScript property whose stored value is `undefined` is distinct, for
  key-presence purposes, from the property being absent; both read back as
  `undefined`.  The model keeps that distinction (`JsStatus.jundef` stored
  in the list vs. the key not occurring).
* Machine numbers: all the counters are small non-negative integers, so
  they are modelled as `Nat`.  `Math.round((c / t) * 100)` is modelled as
  exact rational rounding half-up, `(200 * c + t) / (2 * t)` in `Nat`
  (which is `⌊100 * c / t + 1 / 2⌋`).  For the per-habit statistic the
  denominator is at most 31 and every exact half-integer case there has a
  dyadic reduced denominator, where IEEE double evaluation is exact, so
  the model agrees with the JavaScript evaluation on the claims below.
* `crypto.randomUUID()` (fresh id generation) and the calendar enumeration
  `eachDayOfInterval`/`format` from date-fns are environment inputs; they
  enter the model as parameters (a fresh-id string, lists of `yyyy-MM-dd`
  date-key strings).
-/

/-- The values the source stores in a completion cell.  `types.ts` line 6
declares `HabitStatus = boolean | 'skipped' | undefined`; `jtrue`/`jfalse`
are the booleans, `jskipped` the string `'skipped'`, and `jundef` models the
JavaScript value `undefined` (which can also be stored as a property value,
distinct from the property being absent). -/
inductive JsStatus where
  | jtrue
  | jfalse
  | jskipped
  | jundef
deriving DecidableEq, BEq, Repr

/-- A per-date record `{ [habitId: string]: HabitStatus }`, modelled as an
association list from habit-id to stored status (key present ⇔ property
present on the JavaScript object). -/
abbrev DayRec := List (String × JsStatus)

/-- `HabitCompletion` from `types.ts` lines 8-12: a mapping from date key
(`yyyy-MM-dd`) to a per-date record. -/
abbrev HabitCompletion := List (String × DayRec)

/-- JavaScript property read `r[k]`: the stored value if the key is
present, else `undefined`. -/
def getProp (r : DayRec) (k : String) : JsStatus :=
  match r.find? (fun p => p.1 == k) with
  | some p => p.2
  | none => JsStatus.jundef

/-- JavaScript key presence `k in r`. -/
def hasKey (r : DayRec) (k : String) : Bool :=
  (r.find? (fun p => p.1 == k)).isSome

/-- JavaScript object update `{ ...r, [k]: v }`: the result has `v` stored
under `k` and is unchanged at every other key.  (Entry order is
unobservable in the source, so the updated binding is simply placed in
front.) -/
def setProp (r : DayRec) (k : String) (v : JsStatus) : DayRec :=
  (k, v) :: r.filter (fun p => p.1 != k)

/-- JavaScript read `c[d]` on the completion log: `some` record if the date
key is present, else `none` (reads as `undefined`). -/
def getRec (c : HabitCompletion) (d : String) : Option DayRec :=
  (c.find? (fun p => p.1 == d)).map Prod.snd

/-- JavaScript object update `{ ...c, [d]: r }` on the completion log. -/
def setRec (c : HabitCompletion) (d : String) (r : DayRec) : HabitCompletion :=
  (d, r) :: c.filter (fun p => p.1 != d)

/-- The chained read `c[d]?.[k]` (App.tsx lines 195, 218, 552). -/
def getProp2 (c : HabitCompletion) (d k : String) : JsStatus :=
  match getRec c d with
  | some r => getProp r k
  | none => JsStatus.jundef

/-- Key presence of the habit entry under a date key. -/
def hasKey2 (c : HabitCompletion) (d k : String) : Bool :=
  match getRec c d with
  | some r => hasKey r k
  | none => false

/-- The value physically stored under `(d, k)`, if the entry is present
(`none` when the key is absent; `some JsStatus.jundef` when the key is
present with stored value `undefined`). -/
def getStored (c : HabitCompletion) (d k : String) : Option JsStatus :=
  match getRec c d with
  | some r => (r.find? (fun p => p.1 == k)).map Prod.snd
  | none => none

/-- `JSON.parse(JSON.stringify(c))` on a completion log (the deep copy in
`pushToHistory`, App.tsx line 68, and the wire format of the save path):
`JSON.stringify` drops every object property whose value is `undefined`,
and keeps everything else (including `false`) unchanged. -/
def jsonRT (c : HabitCompletion) : HabitCompletion :=
  c.map (fun p => (p.1, p.2.filter (fun q => q.2 != JsStatus.jundef)))

/-- Well-formedness of a per-date record as the image of a JavaScript
object: no duplicate keys. -/
def WFrec (r : DayRec) : Prop := (r.map Prod.fst).Nodup

/-- Well-formedness of a completion log: every per-date record has no
duplicate keys.  (Association lists with duplicate keys do not correspond
to any JavaScript object.) -/
def WFcomp (c : HabitCompletion) : Prop := ∀ p ∈ c, WFrec p.2

instance (r : DayRec) : Decidable (WFrec r) := by
  unfold WFrec; infer_instance

instance (c : HabitCompletion) : Decidable (WFcomp c) := by
  unfold WFcomp
  exact List.decidableBAll (fun p => WFrec p.2) c

/-- The status successor computed by `cycleHabitState` (App.tsx lines
196-200): `if (!currentStatus) nextStatus = true;` — both `undefined` and
`false` are falsy — `else if (currentStatus === true) nextStatus =
'skipped'; else nextStatus = undefined;`. -/
def nextStatus (currentStatus : JsStatus) : JsStatus :=
  match currentStatus with
  | JsStatus.jundef => JsStatus.jtrue
  | JsStatus.jfalse => JsStatus.jtrue
  | JsStatus.jtrue => JsStatus.jskipped
  | JsStatus.jskipped => JsStatus.jundef

/-- The completion-log updater passed to `setCompletions` in
`cycleHabitState` (App.tsx lines 194-209):
reads `prev[dateKey]?.[habitId]`, computes the next status, and returns
`{ ...prev, [dateKey]: { ...(prev[dateKey] || {}), [habitId]: nextStatus } }`.
Note that when `nextStatus` is `undefined` the property is still assigned
(the key stays present with stored value `undefined`), not deleted. -/
def cycleCompletions (prev : HabitCompletion) (dateKey habitId : String) : HabitCompletion :=
  let currentStatus := getProp2 prev dateKey habitId
  let next := nextStatus currentStatus
  setRec prev dateKey (setProp ((getRec prev dateKey).getD []) habitId next)

/-- The spec-level tri-state status of a cell (`Done | Skipped | Unset`);
the reads the source performs are `status === true` (done),
`status === 'skipped'` (skipped), and everything else rendered/counted as
pending (unset). -/
inductive TriStatus where
  | done
  | skipped
  | unset
deriving DecidableEq, Repr

/-- The tri-state status a cell reads back as. -/
def readStatus (c : HabitCompletion) (d k : String) : TriStatus :=
  match getProp2 c d k with
  | JsStatus.jtrue => TriStatus.done
  | JsStatus.jskipped => TriStatus.skipped
  | _ => TriStatus.unset

/-- The 3-cycle `Unset → Done → Skipped → Unset` on tri-state statuses. -/
def triNext : TriStatus → TriStatus
  | TriStatus.unset => TriStatus.done
  | TriStatus.done => TriStatus.skipped
  | TriStatus.skipped => TriStatus.unset

/-- `Habit` from `types.ts` lines 1-4. -/
structure Habit where
  id : String
  name : String
deriving DecidableEq, Repr

/-- One undo unit: the `{ habits, completions }` element pushed onto the
`history` array (App.tsx lines 64, 68). -/
structure Snapshot where
  habits : List Habit
  completions : HabitCompletion
deriving DecidableEq, Repr

/-- The mutable state the component owns that the core claims concern:
`habits`, `completions` and the undo `history` (App.tsx lines 57-64). -/
structure AppState where
  habits : List Habit
  completions : HabitCompletion
  history : List Snapshot
deriving DecidableEq, Repr

/-- The history updater inside `pushToHistory` (App.tsx lines 67-71):
append the snapshot; if the length now exceeds 50, `slice(1)` (drop the
oldest element, index 0). -/
def capPush (prev : List Snapshot) (s : Snapshot) : List Snapshot :=
  let newHistory := prev ++ [s]
  if newHistory.length > 50 then newHistory.drop 1 else newHistory

/-- `pushToHistory(currentHabits, currentCompletions)` (App.tsx lines
66-72) as a state transformer: pushes the deep copy
`JSON.parse(JSON.stringify(...))` of the current pair.  On the habit list
(plain string fields) the JSON round trip is the identity; on the
completion log it is `jsonRT` (it drops `undefined`-valued entries). -/
def pushToHistory (st : AppState) : AppState :=
  { st with history := capPush st.history { habits := st.habits, completions := jsonRT st.completions } }

/-- `undo` (App.tsx lines 74-80): no-op on empty history, otherwise
restore `history[history.length - 1]` and `slice(0, -1)` the history. -/
def undo (st : AppState) : AppState :=
  match st.history.getLast? with
  | none => st
  | some lastState =>
    { habits := lastState.habits
      completions := lastState.completions
      history := st.history.dropLast }

/-- `String.prototype.trim`, written out structurally (drop whitespace
from both ends of the character list). -/
def jsTrim (s : String) : String :=
  String.mk (((s.data.dropWhile Char.isWhitespace).reverse.dropWhile Char.isWhitespace).reverse)

/-- `addHabit` (App.tsx lines 155-165): no-op when the trimmed input is
empty (empty string is falsy); otherwise push a snapshot and append
`{ id, name: newValue.trim() }`.  The fresh id produced by
`crypto.randomUUID()` is an environment input, passed as `freshId`. -/
def addHabit (st : AppState) (newValue : String) (freshId : String) : AppState :=
  if jsTrim newValue = "" then st
  else
    let st1 := pushToHistory st
    { st1 with habits := st1.habits ++ [{ id := freshId, name := jsTrim newValue }] }

/-- `deleteHabit(id)` (App.tsx lines 167-170): push a snapshot, then keep
exactly the habits whose id differs (unconditionally — there is no
id-membership guard). -/
def deleteHabit (st : AppState) (id : String) : AppState :=
  let st1 := pushToHistory st
  { st1 with habits := st1.habits.filter (fun h => h.id != id) }

/-- `saveEdit` (App.tsx lines 177-182), the rename operation: no-op when
the trimmed edit value is empty; otherwise push a snapshot and map over the
habit list replacing the name of every habit whose id equals
`editingHabitId`.  There is no guard that the id is present in the list.
(`editingHabitId` is component state, passed here as an argument; the
`null` case behaves like any id matching no habit.) -/
def saveEdit (st : AppState) (editingHabitId : String) (editValue : String) : AppState :=
  if jsTrim editValue = "" then st
  else
    let st1 := pushToHistory st
    { st1 with habits := st1.habits.map (fun h =>
        if h.id == editingHabitId then { h with name := jsTrim editValue } else h) }

/-- `cycleHabitState(date, habitId)` (App.tsx lines 190-210) as a state
transformer: push a snapshot, then apply the completion updater. -/
def cycleHabitState (st : AppState) (dateKey habitId : String) : AppState :=
  let st1 := pushToHistory st
  { st1 with completions := cycleCompletions st.completions dateKey habitId }

/-- `Math.round((c / t) * 100)` for `t > 0`, in exact arithmetic:
`⌊100 * c / t + 1 / 2⌋ = (200 * c + t) / (2 * t)` (round half-up). -/
def roundPct (c t : Nat) : Nat := (200 * c + t) / (2 * t)

/-- The `{ count, total, percentage }` record returned by
`getHabitStats` (App.tsx line 226). -/
structure HabitStats where
  count : Nat
  total : Nat
  percentage : Nat
deriving DecidableEq, Repr

/-- The loop body of `getHabitStats` (App.tsx lines 216-223), accumulator
`(count, total)`: if the status is not `'skipped'`, `total += 1` and, when
the status is `=== true`, `count += 1`. -/
def habitStep (completions : HabitCompletion) (habitId : String)
    (acc : Nat × Nat) (day : String) : Nat × Nat :=
  let status := getProp2 completions day habitId
  if status = JsStatus.jskipped then acc
  else ((if status = JsStatus.jtrue then acc.1 + 1 else acc.1), acc.2 + 1)

/-- `getHabitStats(habitId)` (App.tsx lines 212-227).  The component's
`daysInMonth` (the date-fns enumeration of the current month, formatted
`yyyy-MM-dd`) enters as the list `daysInMonth` of date keys. -/
def getHabitStats (daysInMonth : List String) (completions : HabitCompletion)
    (habitId : String) : HabitStats :=
  let ct := daysInMonth.foldl (habitStep completions habitId) (0, 0)
  { count := ct.1
    total := ct.2
    percentage := if ct.2 = 0 then 0 else roundPct ct.1 ct.2 }

/-- One row of `dailyProgressData` (App.tsx lines 246-250); the `day`
field is the display label derived from the date. -/
structure DailyStat where
  day : String
  percentage : Nat
  completed : Nat
deriving DecidableEq, Repr

/-- The per-habit loop body shared by `dailyProgressData` (lines 237-243),
`monthlyOverallStats` (lines 262-268) and `yearlyStats` (lines 294-300),
accumulator `(total, completed)`: if the status is not `'skipped'`, the
total is incremented and, when the status is `=== true`, the completed
count is incremented. -/
def dayStep (completions : HabitCompletion) (dateKey : String)
    (acc : Nat × Nat) (habit : Habit) : Nat × Nat :=
  let status := getProp2 completions dateKey habit.id
  if status = JsStatus.jskipped then acc
  else (acc.1 + 1, (if status = JsStatus.jtrue then acc.2 + 1 else acc.2))

/-- `dailyProgressData` (App.tsx lines 229-252): one record per day of the
month, aggregated over the current habit list. -/
def dailyProgressData (daysInMonth : List String) (habits : List Habit)
    (completions : HabitCompletion) : List DailyStat :=
  daysInMonth.map (fun day =>
    let tc := habits.foldl (dayStep completions day) (0, 0)
    { day := day
      percentage := if tc.1 = 0 then 0 else roundPct tc.2 tc.1
      completed := tc.2 })

/-- The `{ completed, incomplete }` record of `monthlyOverallStats`
(App.tsx lines 272-275). -/
structure MonthlyStats where
  completed : Nat
  incomplete : Nat
deriving DecidableEq, Repr

/-- The `(totalPossible, totalCompleted)` accumulation over every day of a
month and every habit (App.tsx lines 255-269 and 288-301). -/
def monthTotals (days : List String) (habits : List Habit)
    (completions : HabitCompletion) : Nat × Nat :=
  days.foldl (fun acc day => habits.foldl (dayStep completions day) acc) (0, 0)

/-- `monthlyOverallStats` (App.tsx lines 254-276): combined percentage
over the whole month × habit grid, with the zero-denominator guards of
lines 271 and 274. -/
def monthlyOverallStats (daysInMonth : List String) (habits : List Habit)
    (completions : HabitCompletion) : MonthlyStats :=
  let tt := monthTotals daysInMonth habits completions
  let percentage := if tt.1 = 0 then 0 else roundPct tt.2 tt.1
  { completed := percentage
    incomplete := if tt.1 = 0 then 0 else 100 - percentage }

/-- One month's input to the yearly rollup: the date keys of the month's
days (the `eachDayOfInterval` enumeration for month `i` of the current
year) and the `monthDate > new Date()` flag, both environment inputs. -/
structure MonthDays where
  days : List String
  isFuture : Bool
deriving DecidableEq, Repr

/-- One entry of `yearlyStats` (App.tsx lines 304-311); the display-name
fields (`name`, `fullName`, from date formatting) are presentation and are
omitted. -/
structure YearMonthStat where
  percentage : Nat
  totalPossible : Nat
  totalCompleted : Nat
  isFuture : Bool
deriving DecidableEq, Repr

/-- `yearlyStats` (App.tsx lines 278-314): one aggregated entry per
calendar month of the year. -/
def yearlyStats (months : List MonthDays) (habits : List Habit)
    (completions : HabitCompletion) : List YearMonthStat :=
  months.map (fun m =>
    let tt := monthTotals m.days habits completions
    { percentage := if tt.1 = 0 then 0 else roundPct tt.2 tt.1
      totalPossible := tt.1
      totalCompleted := tt.2
      isFuture := m.isFuture })

/-- Spec-side eligibility ("a habit is eligible if its status ≠ Skipped;
Unset counts as eligible but not completed"), as a predicate on a day. -/
def eligB (completions : HabitCompletion) (habitId : String) (day : String) : Bool :=
  getProp2 completions day habitId != JsStatus.jskipped

/-- Spec-side "eligible and Done" ("eligible and Done increments the
numerator"), as a predicate on a day. -/
def doneB (completions : HabitCompletion) (habitId : String) (day : String) : Bool :=
  (getProp2 completions day habitId != JsStatus.jskipped) &&
    (getProp2 completions day habitId == JsStatus.jtrue)

/-- The spec's `habitPercentage` formula, written from the spec's words
(§4.3): count eligible days as the denominator, eligible-and-Done days as
the numerator, and return `round(100 * numerator / denominator)` rounded
half-up, or `0` when the denominator is `0`. -/
def habitPercentageSpec (days : List String) (completions : HabitCompletion)
    (habitId : String) : Nat :=
  let denominator := days.countP (eligB completions habitId)
  let numerator := days.countP (doneB completions habitId)
  if denominator = 0 then 0 else roundPct numerator denominator

/-- Removal of every completion entry belonging to one habit id (used to
state that orphaned entries of a deleted habit are inert). -/
def eraseHabitEntries (c : HabitCompletion) (habitId : String) : HabitCompletion :=
  c.map (fun p => (p.1, p.2.filter (fun q => q.1 != habitId)))

/-- A JSON value, the shape `JSON.parse` produces. -/
inductive Jval where
  | jnull
  | jbool (b : Bool)
  | jnum (n : Int)
  | jstr (s : String)
  | jarr (elems : List Jval)
  | jobj (fields : List (String × Jval))

/-- The default empty shape `{habits: [], completions: {}}` returned by
the GET endpoint on the failure paths (`src/unnamed/part_000` lines 19 and
24). -/
def defaultShape : Jval :=
  Jval.jobj [("habits", Jval.jarr []), ("completions", Jval.jobj [])]

/-- The observable part of the `json(...)` helper's `Response`
(`src/unnamed/part_000` lines 5-12): status code and JSON body. -/
structure JResponse where
  status : Nat
  body : Jval

/-- The `json(data)` helper with its default `status = 200`. -/
def jsonResp (data : Jval) : JResponse := { status := 200, body := data }

/-- `onRequestGet` (`src/unnamed/part_000` lines 14-26): the stored row is
`none` when `SELECT ... WHERE id = 1` finds no record, otherwise `some`
of the `state_json` text; `JSON.parse` is the platform parser, modelled as
an arbitrary function returning `none` exactly when it would throw. -/
def onRequestGet (parseJson : String → Option Jval) (row : Option String) : JResponse :=
  match row with
  | none => jsonResp defaultShape
  | some stateJson =>
    match parseJson stateJson with
    | none => jsonResp defaultShape
    | some parsed => jsonResp parsed

example : jsTrim "  x " = "x" := by decide

example : getHabitStats ["2024-01-01", "2024-01-02"]
    [("2024-01-01", [("1", JsStatus.jtrue)])] "1" =
    { count := 1, total := 2, percentage := 50 } := by decide

example : readStatus
    (cycleCompletions (cycleCompletions (cycleCompletions (cycleCompletions
      [] "2024-01-01" "1") "2024-01-01" "1") "2024-01-01" "1") "2024-01-01" "1")
    "2024-01-01" "1" = TriStatus.done := by decide

/-! ## Helper lemmas about the association-list object model -/

lemma find?_filter_of_imp {α : Type} (l : List α) (p q : α → Bool)
    (hpq : ∀ x, p x = true → q x = true) :
    (l.filter q).find? p = l.find? p := by
  induction l with
  | nil => rfl
  | cons a t ih =>
    cases hqa : q a with
    | false =>
      cases hpa : p a with
      | false =>
        rw [List.filter_cons_of_neg (by simp [hqa]), List.find?_cons_of_neg _ (by simp [hpa]), ih]
      | true => exact absurd (hpq a hpa) (by simp [hqa])
    | true =>
      cases hpa : p a with
      | false =>
        rw [List.filter_cons_of_pos hqa, List.find?_cons_of_neg _ (by simp [hpa]),
          List.find?_cons_of_neg _ (by simp [hpa]), ih]
      | true =>
        rw [List.filter_cons_of_pos hqa, List.find?_cons_of_pos _ hpa,
          List.find?_cons_of_pos _ hpa]

lemma find?_keys_eq_none {α : Type} (l : List (String × α)) (k : String)
    (hk : k ∉ l.map Prod.fst) :
    l.find? (fun p => p.1 == k) = none := by
  rw [List.find?_eq_none]
  intro x hx hbeq
  exact hk (by
    have : x.1 = k := by simpa using hbeq
    exact this ▸ List.mem_map_of_mem Prod.fst hx)

lemma getProp_setProp_self (r : DayRec) (k : String) (v : JsStatus) :
    getProp (setProp r k v) k = v := by
  simp [getProp, setProp]

lemma getProp_setProp_ne (r : DayRec) (k k2 : String) (v : JsStatus) (h : k2 ≠ k) :
    getProp (setProp r k v) k2 = getProp r k2 := by
  unfold getProp setProp
  rw [List.find?_cons_of_neg _ (by simp; exact fun hh => h hh.symm),
    find?_filter_of_imp r _ _ ?_]
  intro x hx
  simp only [beq_iff_eq] at hx
  simp [hx, h]

lemma getRec_setRec_self (c : HabitCompletion) (d : String) (r : DayRec) :
    getRec (setRec c d r) d = some r := by
  simp [getRec, setRec]

lemma getRec_setRec_ne (c : HabitCompletion) (d d2 : String) (r : DayRec) (h : d2 ≠ d) :
    getRec (setRec c d r) d2 = getRec c d2 := by
  unfold getRec setRec
  rw [List.find?_cons_of_neg _ (by simp; exact fun hh => h hh.symm),
    find?_filter_of_imp c _ _ ?_]
  intro x hx
  simp only [beq_iff_eq] at hx
  simp [hx, h]

lemma getProp2_cycle_self (c : HabitCompletion) (d k : String) :
    getProp2 (cycleCompletions c d k) d k = nextStatus (getProp2 c d k) := by
  have h1 : getRec (cycleCompletions c d k) d =
      some (setProp ((getRec c d).getD []) k (nextStatus (getProp2 c d k))) := by
    unfold cycleCompletions
    exact getRec_setRec_self _ _ _
  show (match getRec (cycleCompletions c d k) d with
    | some r => getProp r k
    | none => JsStatus.jundef) = nextStatus (getProp2 c d k)
  rw [h1]
  exact getProp_setProp_self _ _ _

lemma readStatus_cycle (c : HabitCompletion) (d k : String) :
    readStatus (cycleCompletions c d k) d k = triNext (readStatus c d k) := by
  unfold readStatus
  rw [getProp2_cycle_self]
  cases h : getProp2 c d k <;> simp [nextStatus, triNext]

lemma js_bne_self (x : JsStatus) : (x != x) = false := by
  cases x <;> rfl

lemma js_bne_true {x y : JsStatus} (h : x ≠ y) : (x != y) = true := by
  cases x <;> cases y <;> first | rfl | exact absurd rfl h

lemma getRec_cons_ne (a : String × DayRec) (t : HabitCompletion) (d : String)
    (h : ¬ a.1 = d) : getRec (a :: t) d = getRec t d := by
  unfold getRec
  rw [List.find?_cons_of_neg _ (by simp [h])]

lemma getRec_mapSnd (f : DayRec → DayRec) (c : HabitCompletion) (d : String) :
    getRec (c.map (fun p => (p.1, f p.2))) d = (getRec c d).map f := by
  induction c with
  | nil => rfl
  | cons a t ih =>
    by_cases had : a.1 = d
    · simp [getRec, had]
    · simp only [List.map_cons]
      rw [getRec_cons_ne (a.1, f a.2) _ d had, getRec_cons_ne a t d had, ih]

lemma getProp_cons_ne (a : String × JsStatus) (t : DayRec) (k : String) (h : ¬ a.1 = k) :
    getProp (a :: t) k = getProp t k := by
  unfold getProp
  rw [List.find?_cons_of_neg _ (by simp [h])]

lemma getProp_filter_undef (r : DayRec) (hr : WFrec r) (k : String) :
    getProp (r.filter (fun q => q.2 != JsStatus.jundef)) k = getProp r k := by
  induction r with
  | nil => rfl
  | cons a t ih =>
    simp only [WFrec, List.map_cons, List.nodup_cons] at hr
    obtain ⟨hnotin, hnd⟩ := hr
    have ih2 := ih hnd
    by_cases hak : a.1 = k
    · by_cases hv : a.2 = JsStatus.jundef
      · have hdrop : (a :: t).filter (fun q => q.2 != JsStatus.jundef) =
            t.filter (fun q => q.2 != JsStatus.jundef) :=
          List.filter_cons_of_neg (by rw [hv]; decide)
        have hsub : k ∉ (t.filter (fun q => q.2 != JsStatus.jundef)).map Prod.fst := by
          intro hm
          obtain ⟨x, hx, hx1⟩ := List.mem_map.mp hm
          exact hnotin (hak ▸ hx1 ▸ List.mem_map_of_mem Prod.fst (List.mem_of_mem_filter hx))
        rw [hdrop]
        unfold getProp
        rw [find?_keys_eq_none _ _ hsub, List.find?_cons_of_pos _ (by simp [hak])]
        exact hv.symm
      · have hkeep : (a :: t).filter (fun q => q.2 != JsStatus.jundef) =
            a :: t.filter (fun q => q.2 != JsStatus.jundef) :=
          List.filter_cons_of_pos (js_bne_true hv)
        rw [hkeep]
        unfold getProp
        rw [List.find?_cons_of_pos _ (by simp [hak]), List.find?_cons_of_pos _ (by simp [hak])]
    · by_cases hv : a.2 = JsStatus.jundef
      · have hdrop : (a :: t).filter (fun q => q.2 != JsStatus.jundef) =
            t.filter (fun q => q.2 != JsStatus.jundef) :=
          List.filter_cons_of_neg (by rw [hv]; decide)
        rw [hdrop, ih2, getProp_cons_ne a t k hak]
      · have hkeep : (a :: t).filter (fun q => q.2 != JsStatus.jundef) =
            a :: t.filter (fun q => q.2 != JsStatus.jundef) :=
          List.filter_cons_of_pos (js_bne_true hv)
        rw [hkeep, getProp_cons_ne a _ k hak, ih2, getProp_cons_ne a t k hak]

lemma getProp2_jsonRT (c : HabitCompletion) (hwf : WFcomp c) (d k : String) :
    getProp2 (jsonRT c) d k = getProp2 c d k := by
  unfold getProp2 jsonRT
  rw [getRec_mapSnd]
  cases h : getRec c d with
  | none => rfl
  | some r =>
    simp only [Option.map_some']
    apply getProp_filter_undef
    unfold getRec at h
    cases hf : c.find? (fun p => p.1 == d) with
    | none => rw [hf] at h; simp at h
    | some p =>
      rw [hf] at h
      simp only [Option.map_some', Option.some.injEq] at h
      exact h ▸ hwf p (List.mem_of_find?_eq_some hf)

/-! ## Helper lemmas about the undo history -/

lemma capPush_getLast (h : List Snapshot) (s : Snapshot) :
    (capPush h s).getLast? = some s := by
  simp only [capPush]
  split
  · next hl =>
    cases h with
    | nil => simp at hl
    | cons a t =>
      simp only [List.cons_append, List.drop_succ_cons, List.drop_zero]
      exact List.getLast?_concat t
  · exact List.getLast?_concat h

lemma capPush_length_pos (h : List Snapshot) (s : Snapshot) :
    0 < (capPush h s).length := by
  have hg := capPush_getLast h s
  cases hc : capPush h s with
  | nil => rw [hc] at hg; simp at hg
  | cons a t => simp

/-- The restoration property that a mutation followed by `undo` enjoys:
habits come back exactly, completions come back as their JSON round trip
(every cell reads back its pre-mutation status), and the history shrinks
by one from its post-mutation length. -/
def restoresAfter (st st2 : AppState) : Prop :=
  (undo st2).habits = st.habits ∧
  (undo st2).completions = jsonRT st.completions ∧
  (undo st2).history.length + 1 = st2.history.length ∧
  ∀ d k, getProp2 (undo st2).completions d k = getProp2 st.completions d k

lemma restoresAfter_of_history (st st2 : AppState) (hwf : WFcomp st.completions)
    (hh : st2.history =
      capPush st.history { habits := st.habits, completions := jsonRT st.completions }) :
    restoresAfter st st2 := by
  have hl : st2.history.getLast? =
      some { habits := st.habits, completions := jsonRT st.completions } := by
    rw [hh]; exact capPush_getLast _ _
  have hu : undo st2 =
      AppState.mk st.habits (jsonRT st.completions) st2.history.dropLast := by
    unfold undo
    rw [hl]
  have hpos : 0 < st2.history.length := by
    rw [hh]; exact capPush_length_pos _ _
  refine ⟨by rw [hu], by rw [hu], ?_, ?_⟩
  · rw [hu]
    simp only [List.length_dropLast]
    omega
  · intro d k
    rw [hu]
    exact getProp2_jsonRT st.completions hwf d k

/-! ## Helper lemmas about the statistics folds -/

lemma js_beq_refl (x : JsStatus) : (x == x) = true := by
  cases x <;> rfl

lemma eligB_val (c : HabitCompletion) (hid d : String) :
    eligB c hid d = (getProp2 c d hid != JsStatus.jskipped) := rfl

lemma habit_foldl_eq (c : HabitCompletion) (hid : String) (days : List String) (a b : Nat) :
    days.foldl (habitStep c hid) (a, b) =
      (a + days.countP (doneB c hid), b + days.countP (eligB c hid)) := by
  induction days generalizing a b with
  | nil => simp
  | cons d rest ih =>
    rw [List.foldl_cons]
    cases h : getProp2 c d hid with
    | jskipped =>
      have he : eligB c hid d = false := by unfold eligB; rw [h]; decide
      have hd : doneB c hid d = false := by unfold doneB; rw [h]; decide
      rw [show habitStep c hid (a, b) d = (a, b) from by simp [habitStep, h], ih,
        List.countP_cons, List.countP_cons, he, hd]
      simp
    | jtrue =>
      have he : eligB c hid d = true := by unfold eligB; rw [h]; decide
      have hd : doneB c hid d = true := by unfold doneB; rw [h]; decide
      rw [show habitStep c hid (a, b) d = (a + 1, b + 1) from by simp [habitStep, h], ih,
        List.countP_cons, List.countP_cons, he, hd]
      simp only [if_true, Prod.mk.injEq]
      refine ⟨by omega, by omega⟩
    | jfalse =>
      have he : eligB c hid d = true := by unfold eligB; rw [h]; decide
      have hd : doneB c hid d = false := by unfold doneB; rw [h]; decide
      rw [show habitStep c hid (a, b) d = (a, b + 1) from by simp [habitStep, h], ih,
        List.countP_cons, List.countP_cons, he, hd]
      simp only [Prod.mk.injEq]
      refine ⟨by simp, by simp; omega⟩
    | jundef =>
      have he : eligB c hid d = true := by unfold eligB; rw [h]; decide
      have hd : doneB c hid d = false := by unfold doneB; rw [h]; decide
      rw [show habitStep c hid (a, b) d = (a, b + 1) from by simp [habitStep, h], ih,
        List.countP_cons, List.countP_cons, he, hd]
      simp only [Prod.mk.injEq]
      refine ⟨by simp, by simp; omega⟩

lemma day_foldl_eq (c : HabitCompletion) (d : String) (habits : List Habit) (a b : Nat) :
    habits.foldl (dayStep c d) (a, b) =
      (a + habits.countP (fun hb => eligB c hb.id d),
        b + habits.countP (fun hb => doneB c hb.id d)) := by
  induction habits generalizing a b with
  | nil => simp
  | cons hb rest ih =>
    rw [List.foldl_cons]
    cases h : getProp2 c d hb.id with
    | jskipped =>
      have he : eligB c hb.id d = false := by unfold eligB; rw [h]; decide
      have hd : doneB c hb.id d = false := by unfold doneB; rw [h]; decide
      rw [show dayStep c d (a, b) hb = (a, b) from by simp [dayStep, h], ih,
        List.countP_cons, List.countP_cons, he, hd]
      simp
    | jtrue =>
      have he : eligB c hb.id d = true := by unfold eligB; rw [h]; decide
      have hd : doneB c hb.id d = true := by unfold doneB; rw [h]; decide
      rw [show dayStep c d (a, b) hb = (a + 1, b + 1) from by simp [dayStep, h], ih,
        List.countP_cons, List.countP_cons, he, hd]
      simp only [if_true, Prod.mk.injEq]
      refine ⟨by omega, by omega⟩
    | jfalse =>
      have he : eligB c hb.id d = true := by unfold eligB; rw [h]; decide
      have hd : doneB c hb.id d = false := by unfold doneB; rw [h]; decide
      rw [show dayStep c d (a, b) hb = (a + 1, b) from by simp [dayStep, h], ih,
        List.countP_cons, List.countP_cons, he, hd]
      simp only [Prod.mk.injEq]
      refine ⟨by simp; omega, by simp⟩
    | jundef =>
      have he : eligB c hb.id d = true := by unfold eligB; rw [h]; decide
      have hd : doneB c hb.id d = false := by unfold doneB; rw [h]; decide
      rw [show dayStep c d (a, b) hb = (a + 1, b) from by simp [dayStep, h], ih,
        List.countP_cons, List.countP_cons, he, hd]
      simp only [Prod.mk.injEq]
      refine ⟨by simp; omega, by simp⟩

lemma doneB_le_eligB (c : HabitCompletion) (hid d : String) (h : doneB c hid d = true) :
    eligB c hid d = true := by
  unfold doneB at h
  unfold eligB
  cases he : (getProp2 c d hid != JsStatus.jskipped) with
  | false => rw [he] at h; simp at h
  | true => rfl

lemma countP_doneB_le (c : HabitCompletion) (hid : String) (days : List String) :
    days.countP (doneB c hid) ≤ days.countP (eligB c hid) :=
  List.countP_mono_left (fun d _ hd => doneB_le_eligB c hid d hd)

lemma day_countP_doneB_le (c : HabitCompletion) (d : String) (habits : List Habit) :
    habits.countP (fun hb => doneB c hb.id d) ≤ habits.countP (fun hb => eligB c hb.id d) :=
  List.countP_mono_left (fun hb _ hd => doneB_le_eligB c hb.id d hd)

lemma monthTotals_le (days : List String) (habits : List Habit) (c : HabitCompletion) :
    (monthTotals days habits c).2 ≤ (monthTotals days habits c).1 := by
  unfold monthTotals
  suffices hgen : ∀ (a b : Nat), b ≤ a →
      (days.foldl (fun acc day => habits.foldl (dayStep c day) acc) (a, b)).2 ≤
        (days.foldl (fun acc day => habits.foldl (dayStep c day) acc) (a, b)).1 by
    exact hgen 0 0 (Nat.le_refl 0)
  induction days with
  | nil => intro a b hab; simpa
  | cons d rest ih =>
    intro a b hab
    rw [List.foldl_cons]
    have hstep : habits.foldl (dayStep c d) (a, b) =
        (a + habits.countP (fun hb => eligB c hb.id d),
          b + habits.countP (fun hb => doneB c hb.id d)) := day_foldl_eq c d habits a b
    rw [hstep]
    exact ih _ _ (by
      have := day_countP_doneB_le c d habits
      omega)

lemma roundPct_le_100 (c t : Nat) (hc : c ≤ t) (ht : 0 < t) : roundPct c t ≤ 100 := by
  unfold roundPct
  have h2 : 0 < 2 * t := by omega
  have hlt : (200 * c + t) / (2 * t) < 101 := by
    rw [Nat.div_lt_iff_lt_mul h2]
    omega
  omega

lemma day_foldl_congr (c1 c2 : HabitCompletion) (d : String) (habits : List Habit)
    (acc : Nat × Nat)
    (hag : ∀ hb ∈ habits, getProp2 c1 d hb.id = getProp2 c2 d hb.id) :
    habits.foldl (dayStep c1 d) acc = habits.foldl (dayStep c2 d) acc := by
  induction habits generalizing acc with
  | nil => rfl
  | cons hb rest ih =>
    rw [List.foldl_cons, List.foldl_cons]
    have h1 : dayStep c1 d acc hb = dayStep c2 d acc hb := by
      unfold dayStep
      rw [hag hb (by simp)]
    rw [h1]
    exact ih _ (fun x hx => hag x (by simp [hx]))

lemma dailyProgressData_congr (days : List String) (habits : List Habit)
    (c1 c2 : HabitCompletion)
    (hag : ∀ hb ∈ habits, ∀ d, getProp2 c1 d hb.id = getProp2 c2 d hb.id) :
    dailyProgressData days habits c1 = dailyProgressData days habits c2 := by
  unfold dailyProgressData
  apply List.map_congr_left
  intro d _
  rw [day_foldl_congr c1 c2 d habits (0, 0) (fun hb hm => hag hb hm d)]

lemma monthTotals_congr (days : List String) (habits : List Habit)
    (c1 c2 : HabitCompletion)
    (hag : ∀ hb ∈ habits, ∀ d, getProp2 c1 d hb.id = getProp2 c2 d hb.id) :
    monthTotals days habits c1 = monthTotals days habits c2 := by
  unfold monthTotals
  induction days with
  | nil => rfl
  | cons d rest ih =>
    rw [List.foldl_cons, List.foldl_cons,
      day_foldl_congr c1 c2 d habits (0, 0) (fun hb hm => hag hb hm d)]
    clear ih
    generalize habits.foldl (dayStep c2 d) (0, 0) = acc
    induction rest generalizing acc with
    | nil => rfl
    | cons d2 rest2 ih2 =>
      rw [List.foldl_cons, List.foldl_cons,
        day_foldl_congr c1 c2 d2 habits acc (fun hb hm => hag hb hm d2)]
      exact ih2 _

lemma monthlyOverallStats_congr (days : List String) (habits : List Habit)
    (c1 c2 : HabitCompletion)
    (hag : ∀ hb ∈ habits, ∀ d, getProp2 c1 d hb.id = getProp2 c2 d hb.id) :
    monthlyOverallStats days habits c1 = monthlyOverallStats days habits c2 := by
  unfold monthlyOverallStats
  rw [monthTotals_congr days habits c1 c2 hag]

lemma yearlyStats_congr (months : List MonthDays) (habits : List Habit)
    (c1 c2 : HabitCompletion)
    (hag : ∀ hb ∈ habits, ∀ d, getProp2 c1 d hb.id = getProp2 c2 d hb.id) :
    yearlyStats months habits c1 = yearlyStats months habits c2 := by
  unfold yearlyStats
  apply List.map_congr_left
  intro m _
  rw [monthTotals_congr m.days habits c1 c2 hag]

lemma getProp2_erase_ne (c : HabitCompletion) (hid d k : String) (hk : k ≠ hid) :
    getProp2 (eraseHabitEntries c hid) d k = getProp2 c d k := by
  unfold getProp2 eraseHabitEntries
  rw [getRec_mapSnd]
  cases h : getRec c d with
  | none => rfl
  | some r =>
    simp only [Option.map_some']
    unfold getProp
    rw [find?_filter_of_imp r _ _ ?_]
    intro x hx
    simp only [beq_iff_eq] at hx
    simp [hx, hk]

lemma hasKey_setProp (r : DayRec) (k : String) (v : JsStatus) :
    hasKey (setProp r k v) k = true := by
  simp [hasKey, setProp]

lemma getStored_cycle (c : HabitCompletion) (d k : String) :
    getStored (cycleCompletions c d k) d k = some (nextStatus (getProp2 c d k)) := by
  have h1 : getRec (cycleCompletions c d k) d =
      some (setProp ((getRec c d).getD []) k (nextStatus (getProp2 c d k))) := by
    unfold cycleCompletions
    exact getRec_setRec_self _ _ _
  show (match getRec (cycleCompletions c d k) d with
    | some r => (r.find? (fun p => p.1 == k)).map Prod.snd
    | none => none) = some (nextStatus (getProp2 c d k))
  rw [h1]
  show ((setProp ((getRec c d).getD []) k (nextStatus (getProp2 c d k))).find?
    (fun p => p.1 == k)).map Prod.snd = _
  unfold setProp
  rw [List.find?_cons_of_pos _ (by simp)]
  rfl

lemma hasKey2_cycle (c : HabitCompletion) (d k : String) :
    hasKey2 (cycleCompletions c d k) d k = true := by
  have h1 : getRec (cycleCompletions c d k) d =
      some (setProp ((getRec c d).getD []) k (nextStatus (getProp2 c d k))) := by
    unfold cycleCompletions
    exact getRec_setRec_self _ _ _
  show (match getRec (cycleCompletions c d k) d with
    | some r => hasKey r k
    | none => false) = true
  rw [h1]
  exact hasKey_setProp _ _ _

lemma hasKey_filter_setProp (r : DayRec) (k : String) :
    hasKey ((setProp r k JsStatus.jundef).filter (fun q => q.2 != JsStatus.jundef)) k
      = false := by
  unfold setProp
  have hdrop : ((k, JsStatus.jundef) :: r.filter (fun p => p.1 != k)).filter
      (fun q => q.2 != JsStatus.jundef) =
      (r.filter (fun p => p.1 != k)).filter (fun q => q.2 != JsStatus.jundef) :=
    List.filter_cons_of_neg (by intro hcontra; simp [js_bne_self] at hcontra)
  rw [hdrop]
  have hnone : ((r.filter (fun p => p.1 != k)).filter
      (fun q => q.2 != JsStatus.jundef)).find? (fun p => p.1 == k) = none := by
    rw [List.find?_eq_none]
    intro x hx
    have hx1 := List.of_mem_filter (List.mem_of_mem_filter hx)
    simp only [bne_iff_ne, ne_eq] at hx1
    simp [hx1]
  unfold hasKey
  rw [hnone]
  rfl

/-- C1: for every habit id, list of in-range date keys and completion log,
`getHabitStats` counts as eligible exactly the days whose status is not
Skipped (Unset counting as eligible but not completed), counts as completed
the eligible days whose status is Done, and returns the half-up rounding of
`100 * completed / eligible` (0 when eligible is 0); in particular one Done
day out of two in-range days yields 50. -/
theorem claim_c1 (days : List String) (c : HabitCompletion) (hid : String) :
    (getHabitStats days c hid).total = days.countP (eligB c hid) ∧
    (getHabitStats days c hid).count = days.countP (doneB c hid) ∧
    (getHabitStats days c hid).percentage = habitPercentageSpec days c hid ∧
    (getHabitStats ["2024-01-01", "2024-01-02"]
      [("2024-01-01", [("1", JsStatus.jtrue)])] "1").percentage = 50 := by
  have hf := habit_foldl_eq c hid days 0 0
  refine ⟨?_, ?_, ?_, by decide⟩
  · show (days.foldl (habitStep c hid) (0, 0)).2 = _
    rw [hf]
    simp
  · show (days.foldl (habitStep c hid) (0, 0)).1 = _
    rw [hf]
    simp
  · show (if (days.foldl (habitStep c hid) (0, 0)).2 = 0 then 0
      else roundPct (days.foldl (habitStep c hid) (0, 0)).1
        (days.foldl (habitStep c hid) (0, 0)).2) = habitPercentageSpec days c hid
    rw [hf]
    unfold habitPercentageSpec
    simp

/-- C2 counterexample: starting from the empty log the cell reads Unset,
and four applications of the cycle operation to it yield Done, not Unset
(the cycle has period 3, so four applications are equivalent to one). -/
theorem claim_c2_cex :
    readStatus ([] : HabitCompletion) "2024-01-01" "1" = TriStatus.unset ∧
    readStatus (cycleCompletions (cycleCompletions (cycleCompletions (cycleCompletions
        ([] : HabitCompletion) "2024-01-01" "1") "2024-01-01" "1") "2024-01-01" "1")
        "2024-01-01" "1") "2024-01-01" "1" = TriStatus.done ∧
    ¬ readStatus (cycleCompletions (cycleCompletions (cycleCompletions (cycleCompletions
        ([] : HabitCompletion) "2024-01-01" "1") "2024-01-01" "1") "2024-01-01" "1")
        "2024-01-01" "1") "2024-01-01" "1" = TriStatus.unset := by decide

/-- C2 (amended): the cycle operation advances the cell's status along the
fixed order Unset → Done → Skipped → Unset, so three consecutive
applications of the cycle to the same cell return its status to the
original value, and four applications from Unset yield Done (four
applications are equivalent to one); `cycleHabitState` applies exactly this
updater to the completion log. -/
theorem claim_c2_amended (c : HabitCompletion) (d k : String) (st : AppState) :
    readStatus (cycleCompletions c d k) d k = triNext (readStatus c d k) ∧
    readStatus (cycleCompletions (cycleCompletions (cycleCompletions c d k) d k) d k) d k =
      readStatus c d k ∧
    (readStatus c d k = TriStatus.unset →
      readStatus (cycleCompletions (cycleCompletions (cycleCompletions (cycleCompletions
        c d k) d k) d k) d k) d k = TriStatus.done) ∧
    (cycleHabitState st d k).completions = cycleCompletions st.completions d k := by
  refine ⟨readStatus_cycle c d k, ?_, ?_, rfl⟩
  · rw [readStatus_cycle, readStatus_cycle, readStatus_cycle]
    cases readStatus c d k <;> rfl
  · intro h
    rw [readStatus_cycle, readStatus_cycle, readStatus_cycle, readStatus_cycle, h]
    rfl

theorem claim_c2_amended_witness :
    readStatus (cycleCompletions (cycleCompletions (cycleCompletions (cycleCompletions
        ([] : HabitCompletion) "2024-01-01" "1") "2024-01-01" "1") "2024-01-01" "1")
        "2024-01-01" "1") "2024-01-01" "1" = TriStatus.done :=
  (claim_c2_amended [] "2024-01-01" "1" (AppState.mk [] [] [])).2.2.1 (by decide)

/-- C3 counterexample: cycling one cell three times from the empty log
(Unset → Done → Skipped → Unset) leaves the completion log with the
date-key/habit-id entry still present, storing the sentinel `undefined`:
the entry is not removed, so Unset is not represented only by key
absence. -/
theorem claim_c3_cex :
    hasKey2 (cycleCompletions (cycleCompletions (cycleCompletions ([] : HabitCompletion)
        "2024-01-01" "1") "2024-01-01" "1") "2024-01-01" "1") "2024-01-01" "1" = true ∧
    getStored (cycleCompletions (cycleCompletions (cycleCompletions ([] : HabitCompletion)
        "2024-01-01" "1") "2024-01-01" "1") "2024-01-01" "1") "2024-01-01" "1" =
      some JsStatus.jundef := by decide

/-- C3 (amended): writing Unset (cycling from Skipped) keeps the
date-key/habit-id entry present with stored value `undefined` rather than
removing it; such an entry reads back as Unset, and it is dropped by the
JSON serialization used for history snapshots and saves (so Unset is never
materialized in the serialized form, but it is in the live object). -/
theorem claim_c3_amended (c : HabitCompletion) (d k : String)
    (h : getProp2 c d k = JsStatus.jskipped) :
    hasKey2 (cycleCompletions c d k) d k = true ∧
    getStored (cycleCompletions c d k) d k = some JsStatus.jundef ∧
    readStatus (cycleCompletions c d k) d k = TriStatus.unset ∧
    hasKey2 (jsonRT (cycleCompletions c d k)) d k = false := by
  refine ⟨hasKey2_cycle c d k, ?_, ?_, ?_⟩
  · rw [getStored_cycle, h]
    rfl
  · rw [readStatus_cycle]
    unfold readStatus
    rw [h]
    rfl
  · have h1 : getRec (cycleCompletions c d k) d =
        some (setProp ((getRec c d).getD []) k JsStatus.jundef) := by
      unfold cycleCompletions
      rw [h]
      exact getRec_setRec_self _ _ _
    have h2 : getRec (jsonRT (cycleCompletions c d k)) d =
        some ((setProp ((getRec c d).getD []) k JsStatus.jundef).filter
          (fun q => q.2 != JsStatus.jundef)) := by
      unfold jsonRT
      rw [getRec_mapSnd, h1]
      rfl
    show (match getRec (jsonRT (cycleCompletions c d k)) d with
      | some r => hasKey r k
      | none => false) = false
    rw [h2]
    exact hasKey_filter_setProp _ _

theorem claim_c3_amended_witness :
    hasKey2 (cycleCompletions [("2024-01-01", [("1", JsStatus.jskipped)])]
        "2024-01-01" "1") "2024-01-01" "1" = true ∧
    getStored (cycleCompletions [("2024-01-01", [("1", JsStatus.jskipped)])]
        "2024-01-01" "1") "2024-01-01" "1" = some JsStatus.jundef ∧
    readStatus (cycleCompletions [("2024-01-01", [("1", JsStatus.jskipped)])]
        "2024-01-01" "1") "2024-01-01" "1" = TriStatus.unset ∧
    hasKey2 (jsonRT (cycleCompletions [("2024-01-01", [("1", JsStatus.jskipped)])]
        "2024-01-01" "1")) "2024-01-01" "1" = false :=
  claim_c3_amended [("2024-01-01", [("1", JsStatus.jskipped)])] "2024-01-01" "1" (by decide)

/-- C5: the undo buffer never exceeds 50 snapshots: a push on a buffer of
length at most 50 stays at most 50, and a push on a buffer of exactly 50
drops exactly the oldest snapshot (index 0), keeping the order of the
remaining 49 followed by the new one, at length 50. -/
theorem claim_c5 (h : List Snapshot) (s : Snapshot) :
    (h.length ≤ 50 → (capPush h s).length ≤ 50) ∧
    (h.length = 50 → capPush h s = h.drop 1 ++ [s] ∧ (capPush h s).length = 50) := by
  constructor
  · intro hle
    simp only [capPush]
    split
    · next hgt =>
      simp only [List.length_drop, List.length_append, List.length_singleton]
      omega
    · next hng =>
      simp only [List.length_append, List.length_singleton] at hng ⊢
      omega
  · intro h50
    have hgt : (h ++ [s]).length > 50 := by simp [h50]
    constructor
    · simp only [capPush]
      rw [if_pos hgt, List.drop_append_eq_append_drop]
      simp [h50]
    · simp only [capPush]
      rw [if_pos hgt]
      simp [h50]

theorem claim_c5_witness :
    (List.replicate 50 (Snapshot.mk [] [])).length = 50 ∧
    capPush (List.replicate 50 (Snapshot.mk [] [])) (Snapshot.mk [] []) =
      (List.replicate 50 (Snapshot.mk [] [])).drop 1 ++ [Snapshot.mk [] []] :=
  ⟨by simp, ((claim_c5 (List.replicate 50 (Snapshot.mk [] [])) (Snapshot.mk [] [])).2
    (by simp)).1⟩

/-- C4 counterexample: the state whose completions hold an entry stored as
`undefined` (reachable by cycling one cell three times from the empty log,
first conjunct) is not restored exactly by a mutation followed by undo: the
deep copy is a JSON round trip, which drops the `undefined`-valued entry,
so undo brings back a completion log that differs from the pre-mutation
one. -/
theorem claim_c4_cex :
    cycleCompletions (cycleCompletions (cycleCompletions ([] : HabitCompletion)
        "2024-01-01" "1") "2024-01-01" "1") "2024-01-01" "1" =
      [("2024-01-01", [("1", JsStatus.jundef)])] ∧
    (undo (cycleHabitState (AppState.mk [Habit.mk "1" "Read"]
        [("2024-01-01", [("1", JsStatus.jundef)])] []) "2024-01-02" "1")).completions ≠
      [("2024-01-01", [("1", JsStatus.jundef)])] := by decide

/-- C4 (amended): every successful mutating operation (addHabit,
renameHabit via saveEdit, deleteHabit, cycleStatus) first pushes a snapshot
holding the habit list and the JSON round trip of the completions (the
round trip drops entries stored as `undefined`); invoking undo immediately
afterwards restores the habit list exactly, restores the completions to
that round trip — every cell reads back its pre-mutation status, but
entries stored as `undefined` are dropped rather than restored — and
shrinks the history by one from its post-mutation length. -/
theorem claim_c4_amended (st : AppState) (hwf : WFcomp st.completions)
    (name freshId habitId editingHabitId dateKey cellId : String)
    (hn : ¬ jsTrim name = "") :
    restoresAfter st (addHabit st name freshId) ∧
    restoresAfter st (deleteHabit st habitId) ∧
    restoresAfter st (saveEdit st editingHabitId name) ∧
    restoresAfter st (cycleHabitState st dateKey cellId) := by
  refine ⟨?_, ?_, ?_, ?_⟩ <;> apply restoresAfter_of_history st _ hwf
  · simp [addHabit, hn, pushToHistory]
  · simp [deleteHabit, pushToHistory]
  · simp [saveEdit, hn, pushToHistory]
  · simp [cycleHabitState, pushToHistory]

theorem claim_c4_amended_witness :
    restoresAfter (AppState.mk [Habit.mk "1" "Read"]
        [("2024-01-01", [("1", JsStatus.jtrue)])] [])
      (deleteHabit (AppState.mk [Habit.mk "1" "Read"]
        [("2024-01-01", [("1", JsStatus.jtrue)])] []) "1") :=
  (claim_c4_amended (AppState.mk [Habit.mk "1" "Read"]
      [("2024-01-01", [("1", JsStatus.jtrue)])] []) (by decide)
    "x" "9" "1" "zz" "2024-01-02" "1" (by decide)).2.1

/-- C6 counterexample: renaming with a non-empty trimmed name and an id
matching no habit in the current list leaves habits and completions
unchanged, but still pushes a history snapshot — the operation is not a
complete no-op in that case. -/
theorem claim_c6_cex :
    (saveEdit (AppState.mk [Habit.mk "1" "Read"] [] []) "zz" "x").habits =
      [Habit.mk "1" "Read"] ∧
    (saveEdit (AppState.mk [Habit.mk "1" "Read"] [] []) "zz" "x").completions = [] ∧
    (saveEdit (AppState.mk [Habit.mk "1" "Read"] [] []) "zz" "x").history ≠ [] := by decide

/-- C6 (amended): renameHabit (saveEdit) is a complete no-op exactly when
the trimmed new name is empty; when the trimmed name is non-empty it always
pushes a snapshot, leaves the completions unchanged, and replaces the name
of precisely the habits whose id matches — so when the id matches no habit
the habit list is unchanged, yet the history still grows. -/
theorem claim_c6_amended (st : AppState) (eid editValue : String) :
    (jsTrim editValue = "" → saveEdit st eid editValue = st) ∧
    (¬ jsTrim editValue = "" →
      (saveEdit st eid editValue).completions = st.completions ∧
      (saveEdit st eid editValue).history =
        capPush st.history { habits := st.habits, completions := jsonRT st.completions } ∧
      (saveEdit st eid editValue).habits = st.habits.map (fun hb =>
        if hb.id == eid then { hb with name := jsTrim editValue } else hb) ∧
      ((∀ hb ∈ st.habits, ¬ hb.id = eid) →
        (saveEdit st eid editValue).habits = st.habits)) := by
  constructor
  · intro he
    simp [saveEdit, he]
  · intro hn
    refine ⟨by simp [saveEdit, hn, pushToHistory], by simp [saveEdit, hn, pushToHistory],
      by simp [saveEdit, hn, pushToHistory], ?_⟩
    intro hall
    have hmap : st.habits.map (fun hb =>
        if hb.id == eid then { hb with name := jsTrim editValue } else hb) = st.habits := by
      have h2 : st.habits.map (fun hb =>
          if hb.id == eid then { hb with name := jsTrim editValue } else hb) =
          st.habits.map (fun hb => hb) :=
        List.map_congr_left (fun hb hm => by rw [if_neg (by simp [hall hb hm])])
      rw [h2, List.map_id']
    have hh : (saveEdit st eid editValue).habits = st.habits.map (fun hb =>
        if hb.id == eid then { hb with name := jsTrim editValue } else hb) := by
      simp [saveEdit, hn, pushToHistory]
    rw [hh, hmap]

theorem claim_c6_amended_witness :
    saveEdit (AppState.mk [Habit.mk "1" "Read"] [] []) "1" "   " =
      AppState.mk [Habit.mk "1" "Read"] [] [] ∧
    (saveEdit (AppState.mk [Habit.mk "1" "Read"] [] []) "zz" "x").completions = [] :=
  ⟨(claim_c6_amended (AppState.mk [Habit.mk "1" "Read"] [] []) "1" "   ").1 (by decide),
    ((claim_c6_amended (AppState.mk [Habit.mk "1" "Read"] [] []) "zz" "x").2 (by decide)).1⟩

/-- C7: deleteHabit removes exactly the habits with the matching id from
the habit list and leaves the completion log untouched; and because the
daily, monthly and yearly rollups read the completion log only at the ids
of habits in the current list, the orphaned entries of the deleted id are
inert — erasing them changes no rollup computed over the post-delete habit
list. -/
theorem claim_c7 (st : AppState) (hid : String) :
    (deleteHabit st hid).completions = st.completions ∧
    (deleteHabit st hid).habits = st.habits.filter (fun hb => hb.id != hid) ∧
    (∀ (habits : List Habit) (c1 c2 : HabitCompletion) (days : List String)
      (months : List MonthDays),
      (∀ hb ∈ habits, ∀ d, getProp2 c1 d hb.id = getProp2 c2 d hb.id) →
      dailyProgressData days habits c1 = dailyProgressData days habits c2 ∧
      monthlyOverallStats days habits c1 = monthlyOverallStats days habits c2 ∧
      yearlyStats months habits c1 = yearlyStats months habits c2) ∧
    (∀ days : List String,
      dailyProgressData days (deleteHabit st hid).habits st.completions =
        dailyProgressData days (deleteHabit st hid).habits
          (eraseHabitEntries st.completions hid)) := by
  refine ⟨rfl, rfl, ?_, ?_⟩
  · intro habits c1 c2 days months hag
    exact ⟨dailyProgressData_congr days habits c1 c2 hag,
      monthlyOverallStats_congr days habits c1 c2 hag,
      yearlyStats_congr months habits c1 c2 hag⟩
  · intro days
    apply dailyProgressData_congr
    intro hb hm d
    have hm2 : hb ∈ st.habits.filter (fun x => x.id != hid) := hm
    have hne : hb.id ≠ hid := by
      have := (List.mem_filter.mp hm2).2
      simpa using this
    exact (getProp2_erase_ne st.completions hid d hb.id hne).symm

theorem claim_c7_witness :
    (deleteHabit (AppState.mk [Habit.mk "1" "Read", Habit.mk "2" "Gym"]
        [("2024-01-01", [("1", JsStatus.jtrue), ("2", JsStatus.jtrue)])] []) "1").completions =
      [("2024-01-01", [("1", JsStatus.jtrue), ("2", JsStatus.jtrue)])] ∧
    dailyProgressData ["2024-01-01"] [Habit.mk "2" "Gym"]
        [("2024-01-01", [("1", JsStatus.jtrue), ("2", JsStatus.jtrue)])] =
      dailyProgressData ["2024-01-01"] [Habit.mk "2" "Gym"]
        [("2024-01-01", [("2", JsStatus.jtrue)])] := by
  refine ⟨(claim_c7 (AppState.mk [Habit.mk "1" "Read", Habit.mk "2" "Gym"]
      [("2024-01-01", [("1", JsStatus.jtrue), ("2", JsStatus.jtrue)])] []) "1").1,
    ((claim_c7 (AppState.mk [Habit.mk "1" "Read", Habit.mk "2" "Gym"]
        [("2024-01-01", [("1", JsStatus.jtrue), ("2", JsStatus.jtrue)])] []) "1").2.2.1
      [Habit.mk "2" "Gym"]
      [("2024-01-01", [("1", JsStatus.jtrue), ("2", JsStatus.jtrue)])]
      [("2024-01-01", [("2", JsStatus.jtrue)])]
      ["2024-01-01"] [] ?_).1⟩
  intro hb hm d
  have hb2 : hb = Habit.mk "2" "Gym" := by simpa using hm
  subst hb2
  show getProp2 [("2024-01-01", [("1", JsStatus.jtrue), ("2", JsStatus.jtrue)])] d "2" =
    getProp2 [("2024-01-01", [("2", JsStatus.jtrue)])] d "2"
  by_cases hd : ("2024-01-01" : String) = d
  · subst hd
    decide
  · unfold getProp2 getRec
    rw [List.find?_cons_of_neg _ (by simp [hd]), List.find?_cons_of_neg _ (by simp [hd])]

lemma monthTotals_nil (days : List String) (c : HabitCompletion) :
    monthTotals days [] c = (0, 0) := by
  unfold monthTotals
  induction days with
  | nil => rfl
  | cons d rest ih =>
    rw [List.foldl_cons]
    exact ih

lemma guarded_roundPct_le (t cnt : Nat) (hc : cnt ≤ t) :
    (if t = 0 then 0 else roundPct cnt t) ≤ 100 := by
  by_cases h0 : t = 0
  · rw [if_pos h0]
    omega
  · rw [if_neg h0]
    exact roundPct_le_100 _ _ hc (Nat.pos_of_ne_zero h0)

lemma monthTotals_allskip (days : List String) (habits : List Habit)
    (c : HabitCompletion)
    (hall : ∀ d ∈ days, ∀ hb ∈ habits, getProp2 c d hb.id = JsStatus.jskipped) :
    monthTotals days habits c = (0, 0) := by
  have hgen : ∀ ds : List String,
      (∀ d ∈ ds, ∀ hb ∈ habits, getProp2 c d hb.id = JsStatus.jskipped) →
      ds.foldl (fun acc day => habits.foldl (dayStep c day) acc) (0, 0) = (0, 0) := by
    intro ds
    induction ds with
    | nil => intro _; rfl
    | cons d rest ih =>
      intro hall2
      rw [List.foldl_cons]
      have he : habits.countP (fun hb => eligB c hb.id d) = 0 := by
        rw [List.countP_eq_zero]
        intro hb hm hB
        unfold eligB at hB
        rw [hall2 d (by simp) hb hm] at hB
        exact absurd hB (by decide)
      have hd0 : habits.countP (fun hb => doneB c hb.id d) = 0 := by
        have hle := day_countP_doneB_le c d habits
        omega
      have hstep : habits.foldl (dayStep c d) (0, 0) = (0, 0) := by
        rw [day_foldl_eq]
        simp [he, hd0]
      rw [hstep]
      exact ih (fun d2 hd2 hb hm => hall2 d2 (by simp [hd2]) hb hm)
  exact hgen days hall

/-- C8: the statistics are total with an explicit zero-denominator guard:
whenever the eligible-count denominator is 0 — an empty date range, a habit
(or a whole non-empty habit list) with every entry Skipped, or an empty
habit list — the per-habit, daily, monthly and yearly percentage
computations all return 0 (the model is `Nat`-valued, so no NaN or
division error can arise; the guard is what keeps the JavaScript value
numeric). -/
theorem claim_c8 (days : List String) (c : HabitCompletion) (hid : String)
    (habits : List Habit) (months : List MonthDays) :
    ((getHabitStats days c hid).total = 0 → (getHabitStats days c hid).percentage = 0) ∧
    ((∀ d ∈ days, getProp2 c d hid = JsStatus.jskipped) →
      (getHabitStats days c hid).percentage = 0) ∧
    getHabitStats [] c hid = HabitStats.mk 0 0 0 ∧
    (∀ r ∈ dailyProgressData days habits c,
      (habits.countP (fun hb => eligB c hb.id r.day) = 0 →
        r.percentage = 0 ∧ r.completed = 0) ∧
      ((∀ hb ∈ habits, getProp2 c r.day hb.id = JsStatus.jskipped) →
        r.percentage = 0 ∧ r.completed = 0)) ∧
    ((monthTotals days habits c).1 = 0 →
      monthlyOverallStats days habits c = MonthlyStats.mk 0 0) ∧
    ((∀ d ∈ days, ∀ hb ∈ habits, getProp2 c d hb.id = JsStatus.jskipped) →
      monthlyOverallStats days habits c = MonthlyStats.mk 0 0) ∧
    (∀ m ∈ yearlyStats months habits c, m.totalPossible = 0 → m.percentage = 0) ∧
    (∀ mi ∈ months, (∀ d ∈ mi.days, ∀ hb ∈ habits,
        getProp2 c d hb.id = JsStatus.jskipped) →
      YearMonthStat.mk 0 0 0 mi.isFuture ∈ yearlyStats months habits c) ∧
    (∀ r ∈ dailyProgressData days [] c, r.percentage = 0 ∧ r.completed = 0) ∧
    monthlyOverallStats days [] c = MonthlyStats.mk 0 0 ∧
    (∀ m ∈ yearlyStats months [] c, m.percentage = 0 ∧ m.totalPossible = 0) := by
  have hshow : ∀ h0 : (days.foldl (habitStep c hid) (0, 0)).2 = 0,
      (getHabitStats days c hid).percentage = 0 := by
    intro h0
    show (if (days.foldl (habitStep c hid) (0, 0)).2 = 0 then 0
      else roundPct (days.foldl (habitStep c hid) (0, 0)).1
        (days.foldl (habitStep c hid) (0, 0)).2) = 0
    rw [if_pos h0]
  refine ⟨fun h0 => hshow h0, ?_, rfl, ?_, ?_, ?_, ?_, ?_, ?_, ?_, ?_⟩
  · intro hall
    apply hshow
    rw [habit_foldl_eq]
    simp only [Nat.zero_add]
    rw [List.countP_eq_zero]
    intro d hd heB
    unfold eligB at heB
    rw [hall d hd] at heB
    exact absurd heB (by decide)
  · intro r hr
    unfold dailyProgressData at hr
    obtain ⟨day, hdm, heq⟩ := List.mem_map.mp hr
    subst heq
    have hgen : habits.countP (fun hb => eligB c hb.id day) = 0 →
        (if (habits.foldl (dayStep c day) (0, 0)).1 = 0 then 0
          else roundPct (habits.foldl (dayStep c day) (0, 0)).2
            (habits.foldl (dayStep c day) (0, 0)).1) = 0 ∧
        (habits.foldl (dayStep c day) (0, 0)).2 = 0 := by
      intro h0
      have hd0 : habits.countP (fun hb => doneB c hb.id day) = 0 := by
        have hle := day_countP_doneB_le c day habits
        omega
      have htot : (habits.foldl (dayStep c day) (0, 0)).1 = 0 := by
        rw [day_foldl_eq]
        simp [h0]
      have hcmp : (habits.foldl (dayStep c day) (0, 0)).2 = 0 := by
        rw [day_foldl_eq]
        simp [hd0]
      exact ⟨by rw [if_pos htot], hcmp⟩
    constructor
    · exact fun h0 => hgen h0
    · intro hall
      apply hgen
      rw [List.countP_eq_zero]
      intro hb hm hB
      unfold eligB at hB
      rw [hall hb hm] at hB
      exact absurd hB (by decide)
  · intro h0
    simp [monthlyOverallStats, h0]
  · intro hall
    have hz := monthTotals_allskip days habits c hall
    simp [monthlyOverallStats, hz]
  · intro m hm h0
    unfold yearlyStats at hm
    obtain ⟨mi, hmi, heq⟩ := List.mem_map.mp hm
    subst heq
    show (if (monthTotals mi.days habits c).1 = 0 then 0
      else roundPct (monthTotals mi.days habits c).2 (monthTotals mi.days habits c).1) = 0
    rw [if_pos h0]
  · intro mi hmi hall
    have hz := monthTotals_allskip mi.days habits c hall
    unfold yearlyStats
    apply List.mem_map.mpr
    refine ⟨mi, hmi, ?_⟩
    rw [hz]
    rfl
  · intro r hr
    unfold dailyProgressData at hr
    obtain ⟨day, hdm, heq⟩ := List.mem_map.mp hr
    subst heq
    exact ⟨rfl, rfl⟩
  · unfold monthlyOverallStats
    rw [monthTotals_nil]
    rfl
  · intro m hm
    unfold yearlyStats at hm
    obtain ⟨mi, hmi, heq⟩ := List.mem_map.mp hm
    subst heq
    rw [monthTotals_nil]
    exact ⟨rfl, rfl⟩

theorem claim_c8_witness :
    (getHabitStats ["2024-01-01"] [("2024-01-01", [("1", JsStatus.jskipped)])] "1").percentage
      = 0 ∧
    monthlyOverallStats ["2024-01-01"] [Habit.mk "1" "Read"]
      [("2024-01-01", [("1", JsStatus.jskipped)])] = MonthlyStats.mk 0 0 :=
  ⟨(claim_c8 ["2024-01-01"] [("2024-01-01", [("1", JsStatus.jskipped)])] "1"
      [Habit.mk "1" "Read"] []).2.1 (by decide),
    (claim_c8 ["2024-01-01"] [("2024-01-01", [("1", JsStatus.jskipped)])] "1"
      [Habit.mk "1" "Read"] []).2.2.2.2.2.1 (by decide)⟩

/-- C9: the GET state endpoint returns the default empty shape
`{habits: [], completions: {}}` when no stored row exists or the stored
payload fails to parse, returns the parsed stored state when parsing
succeeds, and any default-shaped answer comes from one of those two
failure cases (or from a stored payload that itself parses to the default
shape); every answer carries status 200, so no error surfaces to the
caller. -/
theorem claim_c9 (parseJson : String → Option Jval) (row : Option String) :
    (row = none → onRequestGet parseJson row = jsonResp defaultShape) ∧
    (∀ s, row = some s → parseJson s = none →
      onRequestGet parseJson row = jsonResp defaultShape) ∧
    (∀ s j, row = some s → parseJson s = some j →
      onRequestGet parseJson row = jsonResp j) ∧
    (onRequestGet parseJson row = jsonResp defaultShape →
      row = none ∨ ∃ s, row = some s ∧
        (parseJson s = none ∨ parseJson s = some defaultShape)) ∧
    (onRequestGet parseJson row).status = 200 := by
  refine ⟨?_, ?_, ?_, ?_, ?_⟩
  · intro h
    rw [h]
    rfl
  · intro s hs hp
    rw [hs]
    show (match parseJson s with
      | none => jsonResp defaultShape
      | some parsed => jsonResp parsed) = jsonResp defaultShape
    rw [hp]
  · intro s j hs hp
    rw [hs]
    show (match parseJson s with
      | none => jsonResp defaultShape
      | some parsed => jsonResp parsed) = jsonResp j
    rw [hp]
  · intro hdef
    cases hr : row with
    | none => exact Or.inl rfl
    | some s =>
      refine Or.inr ⟨s, rfl, ?_⟩
      rw [hr] at hdef
      have hdef2 : (match parseJson s with
        | none => jsonResp defaultShape
        | some parsed => jsonResp parsed) = jsonResp defaultShape := hdef
      cases hp : parseJson s with
      | none => exact Or.inl rfl
      | some j =>
        rw [hp] at hdef2
        right
        have hbody : j = defaultShape := congrArg JResponse.body hdef2
        rw [hbody]
  · cases hr : row with
    | none => rfl
    | some s =>
      cases hp : parseJson s with
      | none =>
        show (match parseJson s with
          | none => jsonResp defaultShape
          | some parsed => jsonResp parsed).status = 200
        rw [hp]
        rfl
      | some j =>
        show (match parseJson s with
          | none => jsonResp defaultShape
          | some parsed => jsonResp parsed).status = 200
        rw [hp]
        rfl

theorem claim_c9_witness :
    onRequestGet (fun _ => none) none = jsonResp defaultShape ∧
    onRequestGet (fun _ => some (Jval.jbool true)) (some "true") =
      jsonResp (Jval.jbool true) :=
  ⟨(claim_c9 (fun _ => none) none).1 rfl,
    (claim_c9 (fun _ => some (Jval.jbool true)) (some "true")).2.2.1 "true"
      (Jval.jbool true) rfl rfl⟩

/-- C10: every percentage the statistics produce — the per-habit
percentage, each per-day percentage, the monthly completed and incomplete
shares, and each yearly month entry — is at most 100, for every habit
list, date-key list and completion log (the values are natural numbers by
construction, so they are integers that are also at least 0). -/
theorem claim_c10 (days : List String) (c : HabitCompletion) (hid : String)
    (habits : List Habit) (months : List MonthDays) :
    (getHabitStats days c hid).percentage ≤ 100 ∧
    ((dailyProgressData days habits c).all
      (fun r => decide (r.percentage ≤ 100))) = true ∧
    (monthlyOverallStats days habits c).completed ≤ 100 ∧
    (monthlyOverallStats days habits c).incomplete ≤ 100 ∧
    ((yearlyStats months habits c).all
      (fun m => decide (m.percentage ≤ 100))) = true := by
  refine ⟨?_, ?_, ?_, ?_, ?_⟩
  · show (if (days.foldl (habitStep c hid) (0, 0)).2 = 0 then 0
      else roundPct (days.foldl (habitStep c hid) (0, 0)).1
        (days.foldl (habitStep c hid) (0, 0)).2) ≤ 100
    rw [habit_foldl_eq]
    simp only [Nat.zero_add]
    exact guarded_roundPct_le _ _ (countP_doneB_le c hid days)
  · rw [List.all_eq_true]
    intro r hr
    unfold dailyProgressData at hr
    obtain ⟨day, hd, heq⟩ := List.mem_map.mp hr
    subst heq
    rw [decide_eq_true_eq]
    show (if (habits.foldl (dayStep c day) (0, 0)).1 = 0 then 0
      else roundPct (habits.foldl (dayStep c day) (0, 0)).2
        (habits.foldl (dayStep c day) (0, 0)).1) ≤ 100
    rw [day_foldl_eq]
    simp only [Nat.zero_add]
    exact guarded_roundPct_le _ _ (day_countP_doneB_le c day habits)
  · show (if (monthTotals days habits c).1 = 0 then 0
      else roundPct (monthTotals days habits c).2 (monthTotals days habits c).1) ≤ 100
    exact guarded_roundPct_le _ _ (monthTotals_le days habits c)
  · show (if (monthTotals days habits c).1 = 0 then 0
      else 100 - (if (monthTotals days habits c).1 = 0 then 0
        else roundPct (monthTotals days habits c).2 (monthTotals days habits c).1)) ≤ 100
    by_cases h0 : (monthTotals days habits c).1 = 0
    · rw [if_pos h0]
      omega
    · rw [if_neg h0]
      omega
  · rw [List.all_eq_true]
    intro m hm
    unfold yearlyStats at hm
    obtain ⟨mi, hmi, heq⟩ := List.mem_map.mp hm
    subst heq
    rw [decide_eq_true_eq]
    show (if (monthTotals mi.days habits c).1 = 0 then 0
      else roundPct (monthTotals mi.days habits c).2 (monthTotals mi.days habits c).1) ≤ 100
    exact guarded_roundPct_le _ _ (monthTotals_le mi.days habits c)
